import Mathlib

/-!
Verification of the `appengine-search` full-text search module
(`search/__init__.py`) against its natural-language specification.

The Python source is shallowly embedded: text is modelled as `List Char`,
Python `set`s of phrases as duplicate-free lists, and the App Engine
datastore holding the index entities of one document as an association
list from key names to phrase lists.  Every definition below is a direct
translation of the correspondingly named Python function.
-/

set_option maxRecDepth 4000

/-- A word / string of the Python source, modelled as its character list. -/
abbrev Word := List Char

/-- `string.punctuation` of CPython: the 32 ASCII punctuation characters
(codes 33-47, 58-64, 91-96, 123-126). -/
def punctuation : List Char :=
  [33, 34, 35, 36, 37, 38, 39, 40, 41, 42, 43, 44, 45, 46, 47,
   58, 59, 60, 61, 62, 63, 64, 91, 92, 93, 94, 95, 96,
   123, 124, 125, 126].map Char.ofNat

/-- Python `str.isspace` characters relevant to `str.split()`:
space, tab, newline, carriage return, vertical tab, form feed. -/
def pyIsSpace (c : Char) : Bool :=
  c = ' ' || c = '\t' || c = '\n' || c = '\x0d' || c = '\x0b' || c = '\x0c'

/-- Helper for `pySplitWs`: `cur` is the reversed current fragment. -/
def pySplitWsAux (cur : Word) : Word → List Word
  | [] => if cur = [] then [] else [cur.reverse]
  | c :: rest =>
    if pyIsSpace c then
      if cur = [] then pySplitWsAux [] rest
      else cur.reverse :: pySplitWsAux [] rest
    else pySplitWsAux (c :: cur) rest

/-- Python `str.split()` (no argument): split on runs of whitespace,
discarding empty fragments. -/
def pySplitWs (s : Word) : List Word := pySplitWsAux [] s

/-- Python `' '.join(ws)`. -/
def joinSpace (ws : List Word) : Word := List.intercalate [' '] ws

/-- `SEARCH_PHRASE_MIN_LENGTH` of the source. -/
def SEARCH_PHRASE_MIN_LENGTH : Nat := 4

/-- `MAX_ENTITY_SEARCH_PHRASES = datastore._MAX_INDEXED_PROPERTIES - 1
= 5000 - 1`. -/
def MAX_ENTITY_SEARCH_PHRASES : Nat := 4999

/-- The frozen `STOP_WORDS` set of the source. -/
def STOP_WORDS : List Word :=
  (["a", "about", "according", "accordingly", "affected", "affecting", "after",
    "again", "against", "all", "almost", "already", "also", "although",
    "always", "am", "among", "an", "and", "any", "anyone", "apparently", "are",
    "arise", "as", "aside", "at", "away", "be", "became", "because", "become",
    "becomes", "been", "before", "being", "between", "both", "briefly", "but",
    "by", "came", "can", "cannot", "certain", "certainly", "could", "did", "do",
    "does", "done", "during", "each", "either", "else", "etc", "ever", "every",
    "following", "for", "found", "from", "further", "gave", "gets", "give",
    "given", "giving", "gone", "got", "had", "hardly", "has", "have", "having",
    "here", "how", "however", "i", "if", "in", "into", "is", "it", "itself",
    "just", "keep", "kept", "knowledge", "largely", "like", "made", "mainly",
    "make", "many", "might", "more", "most", "mostly", "much", "must", "nearly",
    "necessarily", "neither", "next", "no", "none", "nor", "normally", "not",
    "noted", "now", "obtain", "obtained", "of", "often", "on", "only", "or",
    "other", "our", "out", "owing", "particularly", "past", "perhaps", "please",
    "poorly", "possible", "possibly", "potentially", "predominantly", "present",
    "previously", "primarily", "probably", "prompt", "promptly", "put",
    "quickly", "quite", "rather", "readily", "really", "recently", "regarding",
    "regardless", "relatively", "respectively", "resulted", "resulting",
    "results", "said", "same", "seem", "seen", "several", "shall", "should",
    "show", "showed", "shown", "shows", "significantly", "similar", "similarly",
    "since", "slightly", "so", "some", "sometime", "somewhat", "soon",
    "specifically", "state", "states", "strongly", "substantially",
    "successfully", "such", "sufficiently", "than", "that", "the", "their",
    "theirs", "them", "then", "there", "therefore", "these", "they", "this",
    "those", "though", "through", "throughout", "to", "too", "toward", "under",
    "unless", "until", "up", "upon", "use", "used", "usefully", "usefulness",
    "using", "usually", "various", "very", "was", "we", "were", "what", "when",
    "where", "whether", "which", "while", "who", "whose", "why", "widely",
    "will", "with", "within", "without", "would", "yet", "you"]).map
    String.toList

/-- `PUNCTUATION_REGEX.subn('', frag)`: the fragment with every punctuation
character removed, paired with the number of characters removed. -/
def stripPunct (frag : Word) : Word × Nat :=
  (frag.filter (fun c => !punctuation.contains c),
   (frag.filter (fun c => punctuation.contains c)).length)

/-- The loop state of `Searchable.get_search_phraseset`: `phrases` is the
accumulated output list (turned into a set at the end), the other three
components are the running `two_words`, `three_words` and
`three_words_no_stop` accumulators. -/
structure PhraseState where
  phrases : List Word
  two_words : List Word
  three_words : List Word
  three_words_no_stop : List Bool
deriving Repr, DecidableEq

/-- One iteration of the `for frag in fragments` loop of
`Searchable.get_search_phraseset`, translated line by line. -/
def phraseStep (st : PhraseState) (frag : Word) : PhraseState :=
  let word := (stripPunct frag).1
  let replaced := (stripPunct frag).2
  let not_end_punctuation :=
    decide (replaced > 1) || !punctuation.contains (frag.getLastD ' ')
  let tw0 := if replaced > 0 && not_end_punctuation then [] else st.two_words
  let th0 := if replaced > 0 && not_end_punctuation then [[], []]
             else st.three_words
  let th1 := th0 ++ [word]
  if STOP_WORDS.contains word then
    { phrases := st.phrases
      two_words := []
      three_words := th1.drop 1
      three_words_no_stop := (st.three_words_no_stop ++ [false]).drop 1 }
  else
    let tw1 := tw0 ++ [word]
    let p1 := if word.length ≥ SEARCH_PHRASE_MIN_LENGTH
              then st.phrases ++ [word] else st.phrases
    let p2 := if tw1.length = 2 then p1 ++ [joinSpace tw1] else p1
    let tw2 := if tw1.length = 2 then tw1.drop 1 else tw1
    let fl1 := st.three_words_no_stop ++ [true]
    let p3 := if th1.length = 3 && fl1.getD 0 false
              then p2 ++ [joinSpace th1] else p2
    { phrases := p3
      two_words := tw2
      three_words := th1.drop 1
      three_words_no_stop := fl1.drop 1 }

/-- `Searchable.get_search_phraseset(text)`.  The returned list represents the
Python result set (the source builds a list and applies `set` at the end;
membership in this list is membership in that set). -/
def get_search_phraseset (text : Word) : List Word :=
  if text = [] then []
  else
    let lowered := text.map Char.toLower
    let dehyphened := lowered.map (fun c => if c = '-' then ' ' else c)
    let fragments := pySplitWs dehyphened
    (fragments.foldl phraseStep
      { phrases := [], two_words := [], three_words := [[], []],
        three_words_no_stop := [false, false] }).phrases

/-- `KEY_NAME_DELIMITER = '||'`. -/
def DELIM : Word := ['|', '|']

/-- Helper for `pySplit`: `cur` is the reversed fragment accumulated since
the last delimiter match. -/
def pySplitAux (cur : Word) : Word → List Word
  | [] => [cur.reverse]
  | [c] => [(c :: cur).reverse]
  | c :: d :: rest =>
    if c = '|' ∧ d = '|' then cur.reverse :: pySplitAux [] rest
    else pySplitAux (c :: cur) (d :: rest)

/-- Python `key_name.split('||')`: split on non-overlapping occurrences of
the two-character delimiter, scanning left to right. -/
def pySplit (s : Word) : List Word := pySplitAux [] s

/-- `SearchIndex.get_index_key_name(parent, index_num)`.

`kindId` is the default title `key.kind() + ' ' + str(key.id_or_name())`
of the parent document.  `indexNumStr` is `str(index_num)` (the source
stringifies the number; in `indexed_title_changed` it is already a string).
`titleAttr` models the `INDEX_TITLE_FROM_PROP` machinery: `none` when the
class attribute is absent, `some none` when the named property is absent or
`None`, `some (some t)` when it holds string `t` (empty `t` is falsy, so
`or title` falls back to the default). -/
def get_index_key_name (kindId : Word) (indexNumStr : Word)
    (titleAttr : Option (Option Word)) : Word :=
  let uniq_key := kindId ++ DELIM ++ indexNumStr
  let title := match titleAttr with
    | none => kindId
    | some none => kindId
    | some (some t) => if t = [] then kindId else t
  uniq_key ++ DELIM ++ title

/-- `SearchIndex.get_title(key_name)`. -/
def get_title (key_name : Word) : Word :=
  let frags := pySplit key_name
  if frags.length < 3 then "Unknown Title".toList else frags.getD 2 []

/-- `SearchIndex.get_index_num(key_name)` (note: returns a string,
`'1'` when the key name has fewer than two fragments). -/
def get_index_num (key_name : Word) : Word :=
  let frags := pySplit key_name
  if frags.length < 2 then ['1'] else frags.getD 1 []

/-- One decimal digit character, `0 ≤ n ≤ 9`. -/
def digitChar (n : Nat) : Char :=
  if n = 0 then '0' else if n = 1 then '1' else if n = 2 then '2'
  else if n = 3 then '3' else if n = 4 then '4' else if n = 5 then '5'
  else if n = 6 then '6' else if n = 7 then '7' else if n = 8 then '8'
  else '9'

/-- Python `str(n)` for a non-negative integer: decimal digits. -/
def natToChars (n : Nat) : Word :=
  if n < 10 then [digitChar n]
  else natToChars (n / 10) ++ [digitChar (n % 10)]
termination_by n
decreasing_by exact Nat.div_lt_self (by omega) (by omega)

/-- A fragment is delimiter-clean when it contains no `'||'` occurrence and
does not end in `'|'` (so that concatenating it with a following `'||'`
cannot create an earlier delimiter match).  This is the precondition under
which the source's `KEY_NAME_DELIMITER` comment ("should not be contained
in derived class key names") guarantees a faithful decode. -/
def okFrag : Word → Bool
  | [] => true
  | c :: rest =>
    if c = '|' then
      match rest with
      | [] => false
      | d :: _ => if d = '|' then false else okFrag rest
    else okFrag rest

/-- The index entities of one document (for one mode), as seen through the
datastore: an association list from index-entity key names to their
`phrases` lists.  A datastore `put` with an existing key name overwrites
that entity; a new key name appends a fresh entity. -/
abbrev ShardStore := List (Word × List Word)

/-- Datastore `put` of one index entity (upsert by key name). -/
def applyPut : ShardStore → Word × List Word → ShardStore
  | [], kv => [kv]
  | e :: rest, kv => if e.1 = kv.1 then kv :: rest else e :: applyPut rest kv

/-- A sequence of datastore `put`s, in order. -/
def applyPuts (store : ShardStore) (ws : List (Word × List Word)) : ShardStore :=
  ws.foldl applyPut store

/-- Datastore `get` by key name. -/
def alookup (k : Word) : ShardStore → Option (List Word)
  | [] => none
  | e :: rest => if e.1 = k then some e.2 else alookup k rest

/-- The `while (num_phrases > 0)` loop of `Searchable.index`: the list of
`put_index` calls it performs, as (key name, phrases slice) pairs.  When
`multi` (INDEX_USES_MULTI_ENTITIES) is false the loop body sets
`num_phrases = 0`, so at most one entity is written. -/
def indexWrites (multi : Bool) (kindId : Word) (titleAttr : Option (Option Word))
    (search_phrases : List Word) (entity_num : Nat) : List (Word × List Word) :=
  if search_phrases = [] then []
  else
    (get_index_key_name kindId (natToChars entity_num) titleAttr,
     search_phrases.take MAX_ENTITY_SEARCH_PHRASES) ::
    (if multi then
       indexWrites multi kindId titleAttr
         (search_phrases.drop MAX_ENTITY_SEARCH_PHRASES) (entity_num + 1)
     else [])
termination_by search_phrases.length
decreasing_by
  have h1 : search_phrases ≠ [] := by assumption
  have h0 : 0 < search_phrases.length := List.length_pos.mpr h1
  have h2 : (search_phrases.drop MAX_ENTITY_SEARCH_PHRASES).length
      = search_phrases.length - MAX_ENTITY_SEARCH_PHRASES :=
    List.length_drop _ _
  have h3 : MAX_ENTITY_SEARCH_PHRASES = 4999 := rfl
  rw [h2]
  omega

/-- `Searchable.index(self)` acting on this document's shard store.
`search_phrases` is `self.get_search_phrases()`: the extracted (and, when
stemming is on, stemmed) term set of the document, listed without
duplicates (it is a Python `set` turned into a list).  With `multi` set,
the previously existing index-entity keys are fetched (`fetch(1000)`)
before the writes, and every previous key absent from the new writes is
deleted afterwards. -/
def Searchable_index (multi : Bool) (kindId : Word)
    (titleAttr : Option (Option Word)) (store : ShardStore)
    (search_phrases : List Word) : ShardStore :=
  let previous_index_keys := if multi then (store.map Prod.fst).take 1000 else []
  let written := indexWrites multi kindId titleAttr search_phrases 1
  let afterPuts := applyPuts store written
  if multi then
    let delete_keys :=
      previous_index_keys.filter (fun k => !(written.map Prod.fst).contains k)
    afterPuts.filter (fun e => !delete_keys.contains e.1)
  else afterPuts

/-- One index entity (a `LiteralIndex` or `StemmedIndex` row) as seen by
`full_text_search`.  `key` abstracts the datastore key identity used by
`key not in index_keys` (distinct stored entities have distinct keys);
`parent` abstracts the parent document key returned by `key.parent()`;
`keyName` is the entity's key name (decoded for titles); `parent_kind` and
`phrases` are the two indexed properties. -/
structure IndexEntity where
  key : Nat
  parent : Nat
  parent_kind : Word
  keyName : Word
  phrases : List Word
deriving Repr, DecidableEq

/-- Whether an entity passes the optional `parent_kind =` filter
(`if kind:` — `none` models a falsy `kind` argument, which adds no
filter). -/
def kind_matches (kind : Option Word) (e : IndexEntity) : Bool :=
  match kind with
  | none => true
  | some k => e.parent_kind = k

/-- A datastore query on an index model: zero or more `phrases =` equality
filters (conjunctive, since `phrases` is a multi-valued property), the
optional `parent_kind =` filter, then `fetch(limit)` in store order. -/
def runQuery (store : List IndexEntity) (phraseFilters : List Word)
    (kind : Option Word) (limit : Nat) : List IndexEntity :=
  (((store.filter (fun e => phraseFilters.all (fun p => e.phrases.contains p))).filter
      (kind_matches kind)).take limit)

/-- The optional stemming transform: `none` models `stemming=False`
(the `LiteralIndex` path), `some f` models `stemming=True` with
`f = stemmer.stemWord`. -/
def applyStem (stem : Option (Word → Word)) (w : Word) : Word :=
  match stem with
  | none => w
  | some f => f w

/-- Tokenization at the top of `full_text_search`:
`PUNCTUATION_REGEX.sub(' ', phrase).lower().split()`. -/
def tokenize (phrase : Word) : List Word :=
  pySplitWs ((phrase.map (fun c => if punctuation.contains c then ' ' else c)).map
    Char.toLower)

/-- The literal multi-word candidate phrases of tier 1: the whole phrase
when there are exactly two keywords, otherwise every window
`keywords[pos:pos+3]` (`pos` ranging over `xrange(0, len(keywords) - 2)`)
whose first and third keywords are not stop words. -/
def tier1_phrases (keywords : List Word) : List Word :=
  if keywords.length = 2 then [joinSpace keywords]
  else
    (List.range (keywords.length - 2)).filterMap (fun pos =>
      if !STOP_WORDS.contains (keywords.getD pos [])
          && !STOP_WORDS.contains (keywords.getD (pos + 2) []) then
        some (joinSpace [keywords.getD pos [], keywords.getD (pos + 1) [],
                         keywords.getD (pos + 2) []])
      else none)

/-- Tier 1 of `full_text_search`: the literal multi-word query, run only
when there is more than one keyword and `multi_word_literal` is set;
otherwise `index_keys` stays `[]`. -/
def literal_tier_keys (store : List IndexEntity) (keywords : List Word)
    (kind : Option Word) (limit : Nat) (stem : Option (Word → Word))
    (multi_word_literal : Bool) : List IndexEntity :=
  if keywords.length > 1 && multi_word_literal then
    runQuery store ((tier1_phrases keywords).map (applyStem stem)) kind limit
  else []

/-- `Searchable.full_text_search`, up to the final mapping step: the
`index_keys` list it accumulates (tier 1, then the keyword-AND tier 2
filtered by `key not in index_keys`). -/
def full_text_search_keys (store : List IndexEntity) (phrase : Word)
    (limit : Nat) (kind : Option Word) (stem : Option (Word → Word))
    (multi_word_literal : Bool) : List IndexEntity :=
  let keywords := tokenize phrase
  let index_keys := literal_tier_keys store keywords kind limit stem
    multi_word_literal
  if index_keys.length < limit then
    let new_limit := limit - index_keys.length
    let kws := (keywords.filter
        (fun w => w.length ≥ SEARCH_PHRASE_MIN_LENGTH)).map (applyStem stem)
    let single_word_matches := (runQuery store kws kind new_limit).filter
      (fun e => !index_keys.any (fun f => f.key = e.key))
    index_keys ++ single_word_matches
  else index_keys

/-- `Searchable.full_text_search`: the returned
`(key.parent(), get_title(key.name()))` pairs. -/
def full_text_search (store : List IndexEntity) (phrase : Word) (limit : Nat)
    (kind : Option Word) (stem : Option (Word → Word))
    (multi_word_literal : Bool) : List (Nat × Word) :=
  (full_text_search_keys store phrase limit kind stem multi_word_literal).map
    (fun e => (e.parent, get_title e.keyName))

/-- The data `SearchIndexing.post` needs about the document behind a task's
`key` parameter, mirroring the attributes `entity.index()` reads. -/
structure DocModel where
  multi : Bool
  kindId : Word
  titleAttr : Option (Option Word)
  terms : List Word

/-- `SearchIndexing.post`: result status code plus the resulting shard
store of the addressed document.  `key_str = none` models a falsy `key`
request parameter (handler body skipped; webapp's default response status
is 200); a present key is looked up with `db.get`, a vanished document
sets status 200 explicitly and performs no store operation, otherwise
`entity.index()` runs. -/
def SearchIndexing_post (key_str : Option Word) (db : Word → Option DocModel)
    (store : ShardStore) : Nat × ShardStore :=
  match key_str with
  | none => (200, store)
  | some k =>
    match db k with
    | none => (200, store)
    | some doc =>
      (200, Searchable_index doc.multi doc.kindId doc.titleAttr store doc.terms)

/-- `Searchable.indexed_title_changed(self)` acting on this document's
shard store.  The old index keys are fetched first (a read);
`IndexTitleError` is raised — before any write — when the class declares
no `INDEX_TITLE_FROM_PROP` (`titleAttr = none`).  Otherwise each old
entity is re-put under the key name carrying the new title (index number
recovered from the old key name), and old keys absent from the new key
list are deleted.  Result: the store after the call, paired with `true`
iff the error was raised. -/
def indexed_title_changed (kindId : Word) (titleAttr : Option (Option Word))
    (store : ShardStore) : ShardStore × Bool :=
  let old_index_keys := (store.map Prod.fst).take 1000
  match titleAttr with
  | none => (store, true)
  | some tv =>
    let put1 := fun (acc : ShardStore × List Word) (old_key : Word) =>
      match alookup old_key acc.1 with
      | none => acc
      | some old_phrases =>
        let index_num := get_index_num old_key
        let new_key := get_index_key_name kindId index_num (some tv)
        (applyPut acc.1 (new_key, old_phrases), acc.2 ++ [new_key])
    let s1 := old_index_keys.foldl put1 (store, [])
    let delete_keys := old_index_keys.filter (fun k => !s1.2.contains k)
    (s1.1.filter (fun e => !delete_keys.contains e.1), false)

/-! ### Key-encoder lemmas -/

theorem pySplitAux_append (a : Word) : ∀ (cur b : Word), okFrag a = true →
    pySplitAux cur (a ++ '|' :: '|' :: b) = (cur.reverse ++ a) :: pySplit b := by
  induction a with
  | nil =>
    intro cur b _
    rw [List.nil_append, pySplitAux, if_pos (by simp)]
    simp [pySplit]
  | cons c rest ih =>
    intro cur b h
    cases rest with
    | nil =>
      have hc : ¬ c = '|' := by
        intro hc
        subst hc
        simp [okFrag] at h
      have hx := ih (c :: cur) b rfl
      rw [List.nil_append] at hx
      rw [List.cons_append, List.nil_append, pySplitAux,
        if_neg (by simp [hc])]
      rw [hx]
      simp
    | cons e rest2 =>
      by_cases hc : c = '|'
      · subst hc
        have he : ¬ e = '|' := by
          intro he
          subst he
          simp [okFrag] at h
        have h2 : okFrag (e :: rest2) = true := by
          simp [okFrag, he] at h
          simp [okFrag, he]
          exact h
        rw [List.cons_append, List.cons_append, pySplitAux,
          if_neg (by simp [he])]
        rw [← List.cons_append]
        rw [ih ('|' :: cur) b h2]
        simp
      · have h2 : okFrag (e :: rest2) = true := by
          simp [okFrag, hc] at h
          simp [okFrag]
          exact h
        rw [List.cons_append, List.cons_append, pySplitAux,
          if_neg (by simp [hc])]
        rw [← List.cons_append]
        rw [ih (c :: cur) b h2]
        simp

theorem pySplit_append (a : Word) (b : Word) (h : okFrag a = true) :
    pySplit (a ++ '|' :: '|' :: b) = a :: pySplit b := by
  rw [pySplit, pySplitAux_append a [] b h]
  simp

theorem okFrag_of_ne_pipe {a : Word} (h : ∀ c ∈ a, c ≠ '|') :
    okFrag a = true := by
  induction a with
  | nil => rfl
  | cons c rest ih =>
    simp only [okFrag]
    rw [if_neg (h c (by simp))]
    exact ih (fun d hd => h d (by simp [hd]))

theorem digitChar_ne_pipe (n : Nat) : digitChar n ≠ '|' := by
  unfold digitChar
  repeat' split
  all_goals decide

theorem natToChars_ne_pipe (n : Nat) : ∀ c ∈ natToChars n, c ≠ '|' := by
  induction n using Nat.strong_induction_on with
  | _ n ih =>
    rw [natToChars]
    split
    · intro c hc
      rw [List.mem_singleton] at hc
      subst hc
      exact digitChar_ne_pipe n
    · next hn =>
      intro c hc
      rw [List.mem_append, List.mem_singleton] at hc
      rcases hc with h1 | h2
      · exact ih (n / 10) (Nat.div_lt_self (by omega) (by omega)) c h1
      · subst h2
        exact digitChar_ne_pipe _

theorem okFrag_natToChars (n : Nat) : okFrag (natToChars n) = true :=
  okFrag_of_ne_pipe (natToChars_ne_pipe n)

theorem natToChars_length_pos (n : Nat) : 0 < (natToChars n).length := by
  rw [natToChars]
  split
  · simp
  · simp

theorem digitChar_inj_lt : ∀ m < 10, ∀ n < 10,
    digitChar m = digitChar n → m = n := by decide

theorem natToChars_eq (n : Nat) : natToChars n =
    if n < 10 then [digitChar n]
    else natToChars (n / 10) ++ [digitChar (n % 10)] := by
  rw [natToChars]

theorem natToChars_inj : ∀ m n : Nat, natToChars m = natToChars n → m = n := by
  intro m
  induction m using Nat.strong_induction_on with
  | _ m ih =>
    intro n h
    rw [natToChars_eq m, natToChars_eq n] at h
    by_cases hm : m < 10
    · rw [if_pos hm] at h
      by_cases hn : n < 10
      · rw [if_pos hn] at h
        rw [List.cons_eq_cons] at h
        exact digitChar_inj_lt m hm n hn h.1
      · rw [if_neg hn] at h
        have := natToChars_length_pos (n / 10)
        have hl := congrArg List.length h
        simp only [List.length_cons, List.length_append, List.length_nil] at hl
        omega
    · rw [if_neg hm] at h
      by_cases hn : n < 10
      · rw [if_pos hn] at h
        have := natToChars_length_pos (m / 10)
        have hl := congrArg List.length h
        simp only [List.length_cons, List.length_append, List.length_nil] at hl
        omega
      · rw [if_neg hn] at h
        have hparts := List.append_inj' h (by simp)
        have hdiv := ih (m / 10) (Nat.div_lt_self (by omega) (by omega))
          (n / 10) hparts.1
        have hmod : m % 10 = n % 10 := by
          have h2 := hparts.2
          rw [List.cons_eq_cons] at h2
          exact digitChar_inj_lt _ (Nat.mod_lt _ (by omega)) _
            (Nat.mod_lt _ (by omega)) h2.1
        omega

/-! ### Shard-store lemmas -/

theorem alookup_applyPut_self (s : ShardStore) (kv : Word × List Word) :
    alookup kv.1 (applyPut s kv) = some kv.2 := by
  induction s with
  | nil => simp [applyPut, alookup]
  | cons e rest ih =>
    rw [applyPut]
    by_cases he : e.1 = kv.1
    · rw [if_pos he, alookup, if_pos rfl]
    · rw [if_neg he, alookup, if_neg he]
      exact ih

theorem alookup_applyPut_ne (s : ShardStore) (kv : Word × List Word) (k : Word)
    (hk : ¬ k = kv.1) : alookup k (applyPut s kv) = alookup k s := by
  induction s with
  | nil =>
    have : ¬ kv.1 = k := fun h => hk h.symm
    simp [applyPut, alookup, this]
  | cons e rest ih =>
    rw [applyPut]
    by_cases he : e.1 = kv.1
    · rw [if_pos he, alookup, alookup]
      have : ¬ kv.1 = k := fun h => hk h.symm
      rw [if_neg this, if_neg (by rw [he]; exact this)]
    · rw [if_neg he, alookup, alookup]
      by_cases hek : e.1 = k
      · rw [if_pos hek, if_pos hek]
      · rw [if_neg hek, if_neg hek]
        exact ih

theorem mem_keys_applyPut (s : ShardStore) (kv : Word × List Word) (k : Word) :
    k ∈ (applyPut s kv).map Prod.fst ↔ k ∈ s.map Prod.fst ∨ k = kv.1 := by
  induction s with
  | nil => simp [applyPut, eq_comm]
  | cons e rest ih =>
    rw [applyPut]
    by_cases he : e.1 = kv.1
    · rw [if_pos he]
      simp [he, eq_comm]
      tauto
    · rw [if_neg he]
      simp at ih
      simp [ih]
      tauto

theorem keysNodup_applyPut (s : ShardStore) (kv : Word × List Word)
    (h : (s.map Prod.fst).Nodup) : ((applyPut s kv).map Prod.fst).Nodup := by
  induction s with
  | nil => simp [applyPut]
  | cons e rest ih =>
    rw [List.map_cons, List.nodup_cons] at h
    rw [applyPut]
    by_cases he : e.1 = kv.1
    · rw [if_pos he, List.map_cons, List.nodup_cons]
      exact ⟨by rw [← he]; exact h.1, h.2⟩
    · rw [if_neg he, List.map_cons, List.nodup_cons]
      refine ⟨?_, ih h.2⟩
      intro hmem
      rcases (mem_keys_applyPut rest kv e.1).mp hmem with h1 | h2
      · exact h.1 h1
      · exact he h2

theorem applyPuts_cons (s : ShardStore) (w : Word × List Word)
    (ws : List (Word × List Word)) :
    applyPuts s (w :: ws) = applyPuts (applyPut s w) ws := rfl

theorem alookup_applyPuts_notMem (ws : List (Word × List Word)) :
    ∀ (s : ShardStore) (k : Word), k ∉ ws.map Prod.fst →
    alookup k (applyPuts s ws) = alookup k s := by
  induction ws with
  | nil => intro s k _; rfl
  | cons w rest ih =>
    intro s k hk
    rw [List.map_cons] at hk
    have hk1 : ¬ k = w.1 := fun h => hk (by rw [h]; exact List.mem_cons_self _ _)
    have hk2 : k ∉ rest.map Prod.fst := fun h => hk (List.mem_cons_of_mem _ h)
    rw [applyPuts_cons, ih (applyPut s w) k hk2]
    exact alookup_applyPut_ne s w k hk1

theorem alookup_applyPuts_mem (ws : List (Word × List Word)) :
    ∀ (s : ShardStore) (kv : Word × List Word), kv ∈ ws →
    (ws.map Prod.fst).Nodup →
    alookup kv.1 (applyPuts s ws) = some kv.2 := by
  induction ws with
  | nil => intro s kv h _; simp at h
  | cons w rest ih =>
    intro s kv hmem hnd
    rw [List.map_cons, List.nodup_cons] at hnd
    rw [applyPuts_cons]
    rcases List.mem_cons.mp hmem with h1 | h2
    · subst h1
      rw [alookup_applyPuts_notMem rest (applyPut s kv) kv.1 hnd.1]
      exact alookup_applyPut_self s kv
    · exact ih (applyPut s w) kv h2 hnd.2

theorem mem_keys_applyPuts (ws : List (Word × List Word)) :
    ∀ (s : ShardStore) (k : Word),
    k ∈ (applyPuts s ws).map Prod.fst ↔
      k ∈ s.map Prod.fst ∨ k ∈ ws.map Prod.fst := by
  induction ws with
  | nil => intro s k; simp [applyPuts]
  | cons w rest ih =>
    intro s k
    rw [applyPuts_cons, ih]
    rw [mem_keys_applyPut]
    simp
    tauto

theorem keysNodup_applyPuts (ws : List (Word × List Word)) :
    ∀ (s : ShardStore), (s.map Prod.fst).Nodup →
    ((applyPuts s ws).map Prod.fst).Nodup := by
  induction ws with
  | nil => intro s h; exact h
  | cons w rest ih =>
    intro s h
    rw [applyPuts_cons]
    exact ih _ (keysNodup_applyPut s w h)

theorem mem_of_alookup_eq_some {k : Word} {v : List Word} :
    ∀ (s : ShardStore), alookup k s = some v → (k, v) ∈ s := by
  intro s
  induction s with
  | nil => intro h; simp [alookup] at h
  | cons e rest ih =>
    intro h
    rw [alookup] at h
    by_cases he : e.1 = k
    · rw [if_pos he] at h
      have hv : e.2 = v := by injection h
      have hkv : (k, v) = e := by
        rw [← he, ← hv]
      rw [hkv]
      exact List.mem_cons_self e rest
    · rw [if_neg he] at h
      exact List.mem_cons_of_mem _ (ih h)

theorem alookup_eq_some_of_mem {k : Word} {v : List Word} :
    ∀ (s : ShardStore), (s.map Prod.fst).Nodup → (k, v) ∈ s →
    alookup k s = some v := by
  intro s
  induction s with
  | nil => intro _ h; simp at h
  | cons e rest ih =>
    intro hnd h
    rw [List.map_cons, List.nodup_cons] at hnd
    rw [alookup]
    rcases List.mem_cons.mp h with h1 | h2
    · rw [← h1]
      simp
    · have hek : ¬ e.1 = k := by
        intro hek
        apply hnd.1
        rw [hek]
        exact List.mem_map_of_mem Prod.fst h2
      rw [if_neg hek]
      exact ih hnd.2 h2

/-! ### Indexer lemmas -/

theorem contains_iff (l : List Word) (a : Word) :
    l.contains a = true ↔ a ∈ l := List.elem_iff

theorem get_index_key_name_inj_num (kid : Word) (ta : Option (Option Word))
    {x y : Word} (h : get_index_key_name kid x ta = get_index_key_name kid y ta) :
    x = y := by
  unfold get_index_key_name at h
  simp only [List.append_assoc] at h
  have h1 := List.append_cancel_left h
  have h2 := List.append_cancel_left h1
  exact List.append_cancel_right h2

theorem indexWrites_nil (multi : Bool) (kid : Word) (ta : Option (Option Word))
    (n : Nat) : indexWrites multi kid ta [] n = [] := by
  rw [indexWrites]
  simp

theorem indexWrites_cons (multi : Bool) (kid : Word) (ta : Option (Option Word))
    (phrases : List Word) (hp : phrases ≠ []) (n : Nat) :
    indexWrites multi kid ta phrases n =
      (get_index_key_name kid (natToChars n) ta,
       phrases.take MAX_ENTITY_SEARCH_PHRASES) ::
      (if multi then
         indexWrites multi kid ta
           (phrases.drop MAX_ENTITY_SEARCH_PHRASES) (n + 1)
       else []) := by
  rw [indexWrites]
  rw [if_neg hp]

theorem indexWrites_mem (kid : Word) (ta : Option (Option Word)) :
    ∀ (len : Nat) (phrases : List Word), phrases.length ≤ len →
    ∀ (n : Nat) (e : Word × List Word), e ∈ indexWrites true kid ta phrases n →
    ∃ m, n ≤ m ∧ e.1 = get_index_key_name kid (natToChars m) ta ∧
      (∀ w ∈ e.2, w ∈ phrases) ∧ e.2.length ≤ MAX_ENTITY_SEARCH_PHRASES := by
  intro len
  induction len with
  | zero =>
    intro phrases hl n e he
    have : phrases = [] := List.length_eq_zero.mp (Nat.le_zero.mp hl)
    rw [this, indexWrites_nil] at he
    simp at he
  | succ len ih =>
    intro phrases hl n e he
    by_cases hp : phrases = []
    · rw [hp, indexWrites_nil] at he
      simp at he
    · rw [indexWrites_cons true kid ta phrases hp n, if_pos rfl] at he
      rcases List.mem_cons.mp he with h1 | h2
      · refine ⟨n, Nat.le_refl n, ?_, ?_, ?_⟩
        · rw [h1]
        · rw [h1]
          exact fun w hw => List.take_subset _ _ hw
        · rw [h1]
          simp [List.length_take]
      · have hdl : (phrases.drop MAX_ENTITY_SEARCH_PHRASES).length ≤ len := by
          rw [List.length_drop]
          have : phrases.length ≠ 0 := fun h => hp (List.length_eq_zero.mp h)
          have hM : MAX_ENTITY_SEARCH_PHRASES = 4999 := rfl
          omega
        rcases ih _ hdl (n + 1) e h2 with ⟨m, hm, he1, he2, he3⟩
        exact ⟨m, by omega, he1,
          fun w hw => List.drop_subset _ _ (he2 w hw), he3⟩

theorem indexWrites_keys_nodup (kid : Word) (ta : Option (Option Word)) :
    ∀ (len : Nat) (phrases : List Word), phrases.length ≤ len →
    ∀ (n : Nat),
    ((indexWrites true kid ta phrases n).map Prod.fst).Nodup := by
  intro len
  induction len with
  | zero =>
    intro phrases hl n
    rw [List.length_eq_zero.mp (Nat.le_zero.mp hl), indexWrites_nil]
    simp
  | succ len ih =>
    intro phrases hl n
    by_cases hp : phrases = []
    · rw [hp, indexWrites_nil]
      simp
    · rw [indexWrites_cons true kid ta phrases hp n, if_pos rfl]
      rw [List.map_cons, List.nodup_cons]
      have hdl : (phrases.drop MAX_ENTITY_SEARCH_PHRASES).length ≤ len := by
        rw [List.length_drop]
        have : phrases.length ≠ 0 := fun h => hp (List.length_eq_zero.mp h)
        have hM : MAX_ENTITY_SEARCH_PHRASES = 4999 := rfl
        omega
      refine ⟨?_, ih _ hdl (n + 1)⟩
      intro hmem
      rcases List.mem_map.mp hmem with ⟨e, he, hfst⟩
      simp only at hfst
      rcases indexWrites_mem kid ta len _ hdl (n + 1) e he with
        ⟨m, hm, he1, _, _⟩
      have : natToChars n = natToChars m :=
        get_index_key_name_inj_num kid ta (by rw [← hfst, he1])
      have := natToChars_inj n m this
      omega

theorem indexWrites_length (kid : Word) (ta : Option (Option Word)) :
    ∀ (len : Nat) (phrases : List Word), phrases.length ≤ len → ∀ (n : Nat),
    (indexWrites true kid ta phrases n).length =
      (phrases.length + MAX_ENTITY_SEARCH_PHRASES - 1) /
        MAX_ENTITY_SEARCH_PHRASES := by
  intro len
  induction len with
  | zero =>
    intro phrases hl n
    rw [List.length_eq_zero.mp (Nat.le_zero.mp hl), indexWrites_nil]
    simp
    decide
  | succ len ih =>
    intro phrases hl n
    by_cases hp : phrases = []
    · rw [hp, indexWrites_nil]
      simp
      decide
    · rw [indexWrites_cons true kid ta phrases hp n, if_pos rfl]
      rw [List.length_cons]
      have hL : phrases.length ≠ 0 := fun h => hp (List.length_eq_zero.mp h)
      have hM : MAX_ENTITY_SEARCH_PHRASES = 4999 := rfl
      have hdl : (phrases.drop MAX_ENTITY_SEARCH_PHRASES).length ≤ len := by
        rw [List.length_drop]
        omega
      rw [ih _ hdl (n + 1)]
      rw [List.length_drop, hM]
      by_cases hbig : phrases.length ≤ 4999
      · have h1 : phrases.length - 4999 = 0 := by omega
        rw [h1]
        have h2 : (0 + 4999 - 1) / 4999 = 0 := by decide
        rw [h2]
        have h3 : (phrases.length + 4999 - 1) / 4999 = 1 :=
          Nat.div_eq_of_lt_le (by omega) (by omega)
        rw [h3]
      · have h1 : phrases.length - 4999 + 4999 - 1
            = (phrases.length - 4999 - 1) + 4999 := by omega
        have h2 : phrases.length + 4999 - 1
            = (phrases.length - 1 - 4999) + 4999 + 4999 := by omega
        rw [h1, h2, Nat.add_div_right _ (by omega),
          Nat.add_div_right _ (by omega)]
        have h3 : phrases.length - 4999 - 1 = phrases.length - 1 - 4999 := by
          omega
        rw [h3]
        rw [Nat.add_div_right _ (by omega)]

theorem indexWrites_covers (kid : Word) (ta : Option (Option Word)) :
    ∀ (len : Nat) (phrases : List Word), phrases.length ≤ len →
    ∀ (n : Nat) (w : Word), w ∈ phrases →
    ∃ e ∈ indexWrites true kid ta phrases n, w ∈ e.2 := by
  intro len
  induction len with
  | zero =>
    intro phrases hl n w hw
    rw [List.length_eq_zero.mp (Nat.le_zero.mp hl)] at hw
    simp at hw
  | succ len ih =>
    intro phrases hl n w hw
    have hp : phrases ≠ [] := by
      intro h
      rw [h] at hw
      simp at hw
    rw [indexWrites_cons true kid ta phrases hp n, if_pos rfl]
    have hsplit := List.take_append_drop MAX_ENTITY_SEARCH_PHRASES phrases
    rw [← hsplit] at hw
    rcases List.mem_append.mp hw with h1 | h2
    · exact ⟨(get_index_key_name kid (natToChars n) ta,
        phrases.take MAX_ENTITY_SEARCH_PHRASES), by simp, h1⟩
    · have hdl : (phrases.drop MAX_ENTITY_SEARCH_PHRASES).length ≤ len := by
        rw [List.length_drop]
        have : phrases.length ≠ 0 := fun h => hp (List.length_eq_zero.mp h)
        have hM : MAX_ENTITY_SEARCH_PHRASES = 4999 := rfl
        omega
      rcases ih _ hdl (n + 1) w h2 with ⟨e, he, hwe⟩
      exact ⟨e, List.mem_cons_of_mem _ he, hwe⟩

theorem indexWrites_disjoint (kid : Word) (ta : Option (Option Word)) :
    ∀ (len : Nat) (phrases : List Word), phrases.length ≤ len →
    phrases.Nodup → ∀ (n : Nat),
    (indexWrites true kid ta phrases n).Pairwise
      (fun s t => ∀ w ∈ s.2, w ∉ t.2) := by
  intro len
  induction len with
  | zero =>
    intro phrases hl _ n
    rw [List.length_eq_zero.mp (Nat.le_zero.mp hl), indexWrites_nil]
    simp
  | succ len ih =>
    intro phrases hl hnd n
    by_cases hp : phrases = []
    · rw [hp, indexWrites_nil]
      simp
    · rw [indexWrites_cons true kid ta phrases hp n, if_pos rfl]
      have hdl : (phrases.drop MAX_ENTITY_SEARCH_PHRASES).length ≤ len := by
        rw [List.length_drop]
        have : phrases.length ≠ 0 := fun h => hp (List.length_eq_zero.mp h)
        have hM : MAX_ENTITY_SEARCH_PHRASES = 4999 := rfl
        omega
      have hdisj : (phrases.take MAX_ENTITY_SEARCH_PHRASES).Disjoint
          (phrases.drop MAX_ENTITY_SEARCH_PHRASES) := by
        have := List.take_append_drop MAX_ENTITY_SEARCH_PHRASES phrases
        rw [← this] at hnd
        exact (List.nodup_append.mp hnd).2.2
      refine List.Pairwise.cons ?_ (ih _ hdl ?_ (n + 1))
      · intro e he w hw
        rcases indexWrites_mem kid ta len _ hdl (n + 1) e he with
          ⟨m, _, _, he2, _⟩
        intro hwe
        exact hdisj hw (he2 w hwe)
      · have := List.take_append_drop MAX_ENTITY_SEARCH_PHRASES phrases
        rw [← this] at hnd
        exact (List.nodup_append.mp hnd).2.1

theorem Searchable_index_multi_eq (kid : Word) (ta : Option (Option Word))
    (store : ShardStore) (phrases : List Word) :
    Searchable_index true kid ta store phrases =
      (applyPuts store (indexWrites true kid ta phrases 1)).filter
        (fun e => !(((store.map Prod.fst).take 1000).filter
          (fun k =>
            !((indexWrites true kid ta phrases 1).map Prod.fst).contains k)).contains
          e.1) := rfl

theorem Searchable_index_multi_perm (kid : Word) (ta : Option (Option Word))
    (store : ShardStore) (phrases : List Word)
    (hnd : (store.map Prod.fst).Nodup) (hlen : store.length ≤ 1000) :
    (Searchable_index true kid ta store phrases).Perm
      (indexWrites true kid ta phrases 1) := by
  have htake : (store.map Prod.fst).take 1000 = store.map Prod.fst :=
    List.take_of_length_le (by rw [List.length_map]; exact hlen)
  rw [Searchable_index_multi_eq, htake]
  have hW : ((indexWrites true kid ta phrases 1).map Prod.fst).Nodup :=
    indexWrites_keys_nodup kid ta phrases.length phrases (Nat.le_refl _) 1
  set written := indexWrites true kid ta phrases 1 with hwr
  set deleteKeys := (store.map Prod.fst).filter
    (fun k => !(written.map Prod.fst).contains k) with hdk
  set final := (applyPuts store written).filter
    (fun e => !deleteKeys.contains e.1) with hfin
  have hAPnd : ((applyPuts store written).map Prod.fst).Nodup :=
    keysNodup_applyPuts written store hnd
  have hFnd : (final.map Prod.fst).Nodup :=
    List.Nodup.sublist (List.Sublist.map Prod.fst (List.filter_sublist _)) hAPnd
  have hFnodup : final.Nodup := List.Nodup.of_map Prod.fst hFnd
  have hWnodup : written.Nodup := List.Nodup.of_map Prod.fst hW
  refine (List.perm_ext_iff_of_nodup hFnodup hWnodup).mpr ?_
  intro e
  constructor
  · intro he
    rcases List.mem_filter.mp he with ⟨heAP, hfk⟩
    have hnotdel : e.1 ∉ deleteKeys := by
      intro hmem
      rw [(contains_iff deleteKeys e.1).mpr hmem] at hfk
      simp at hfk
    by_cases hkW : e.1 ∈ written.map Prod.fst
    · rcases List.mem_map.mp hkW with ⟨w, hwmem, hwfst⟩
      have h1 : alookup e.1 (applyPuts store written) = some w.2 := by
        rw [← hwfst]
        exact alookup_applyPuts_mem written store w hwmem hW
      have h2 : alookup e.1 (applyPuts store written) = some e.2 :=
        alookup_eq_some_of_mem _ hAPnd heAP
      have hv : w.2 = e.2 := by
        rw [h1] at h2
        injection h2
      have : w = e := by
        have : (w.1, w.2) = (e.1, e.2) := by rw [hwfst, hv]
        simpa using this
      rw [← this]
      exact hwmem
    · exfalso
      apply hnotdel
      have hkAP : e.1 ∈ (applyPuts store written).map Prod.fst :=
        List.mem_map_of_mem Prod.fst heAP
      rcases (mem_keys_applyPuts written store e.1).mp hkAP with h1 | h2
      · rw [hdk]
        refine List.mem_filter.mpr ⟨h1, ?_⟩
        have : ¬ (written.map Prod.fst).contains e.1 = true :=
          fun hcon => hkW ((contains_iff _ _).mp hcon)
        rw [Bool.not_eq_true] at this
        rw [this]
        rfl
      · exact absurd h2 hkW
  · intro he
    have halk : alookup e.1 (applyPuts store written) = some e.2 :=
      alookup_applyPuts_mem written store e he hW
    have heAP : e ∈ applyPuts store written := by
      have := mem_of_alookup_eq_some _ halk
      simpa using this
    refine List.mem_filter.mpr ⟨heAP, ?_⟩
    have hkW : e.1 ∈ written.map Prod.fst := List.mem_map_of_mem Prod.fst he
    by_cases hdc : deleteKeys.contains e.1 = true
    · exfalso
      have hmem := (contains_iff _ _).mp hdc
      rw [hdk] at hmem
      have hpass := (List.mem_filter.mp hmem).2
      rw [(contains_iff _ _).mpr hkW] at hpass
      simp at hpass
    · rw [Bool.not_eq_true] at hdc
      rw [hdc]
      rfl

/-! ### Query-engine lemmas -/

theorem runQuery_sublist (store : List IndexEntity) (fs : List Word)
    (kind : Option Word) (limit : Nat) :
    (runQuery store fs kind limit).Sublist store :=
  (List.take_sublist _ _).trans
    ((List.filter_sublist _).trans (List.filter_sublist _))

theorem literal_tier_keys_sublist (store : List IndexEntity)
    (keywords : List Word) (kind : Option Word) (limit : Nat)
    (stem : Option (Word → Word)) (mw : Bool) :
    (literal_tier_keys store keywords kind limit stem mw).Sublist store := by
  rw [literal_tier_keys]
  split
  · exact runQuery_sublist _ _ _ _
  · exact List.nil_sublist _

theorem full_text_search_keys_eq (store : List IndexEntity) (phrase : Word)
    (limit : Nat) (kind : Option Word) (stem : Option (Word → Word))
    (mw : Bool) :
    full_text_search_keys store phrase limit kind stem mw =
      if (literal_tier_keys store (tokenize phrase) kind limit stem mw).length
          < limit then
        literal_tier_keys store (tokenize phrase) kind limit stem mw ++
        (runQuery store
            (((tokenize phrase).filter
                (fun w => w.length ≥ SEARCH_PHRASE_MIN_LENGTH)).map
              (applyStem stem))
            kind
            (limit - (literal_tier_keys store (tokenize phrase) kind limit stem
              mw).length)).filter
          (fun e =>
            !(literal_tier_keys store (tokenize phrase) kind limit stem mw).any
              (fun f => f.key = e.key))
      else literal_tier_keys store (tokenize phrase) kind limit stem mw := rfl

theorem full_text_search_keys_nodup (store : List IndexEntity) (phrase : Word)
    (limit : Nat) (kind : Option Word) (stem : Option (Word → Word))
    (mw : Bool) (h : (store.map IndexEntity.key).Nodup) :
    ((full_text_search_keys store phrase limit kind stem mw).map
      IndexEntity.key).Nodup := by
  rw [full_text_search_keys_eq]
  set L := literal_tier_keys store (tokenize phrase) kind limit stem mw with hL
  have hLsub : L.Sublist store := literal_tier_keys_sublist _ _ _ _ _ _
  have hLnd : (L.map IndexEntity.key).Nodup :=
    List.Nodup.sublist (List.Sublist.map IndexEntity.key hLsub) h
  split
  · set single := (runQuery store
        (((tokenize phrase).filter
            (fun w => w.length ≥ SEARCH_PHRASE_MIN_LENGTH)).map
          (applyStem stem)) kind (limit - L.length)).filter
      (fun e => !L.any (fun f => f.key = e.key)) with hs
    have hSsub : single.Sublist store :=
      (List.filter_sublist _).trans (runQuery_sublist _ _ _ _)
    have hSnd : (single.map IndexEntity.key).Nodup :=
      List.Nodup.sublist (List.Sublist.map IndexEntity.key hSsub) h
    rw [List.map_append]
    refine List.nodup_append.mpr ⟨hLnd, hSnd, ?_⟩
    intro k hkL hkS
    rcases List.mem_map.mp hkS with ⟨e, heS, hek⟩
    rcases List.mem_map.mp hkL with ⟨f, hfL, hfk⟩
    have hpass := (List.mem_filter.mp heS).2
    simp at hpass
    exact hpass f hfL (by rw [hfk, hek])
  · exact hLnd

/-! ### Claim theorems -/

/-- C3: the multi-word phrase extractor (`get_search_phraseset`, i.e. the
extractor with multi-word windows, minimum unigram length 4 and the
built-in stop-word set) maps "I shall return." to exactly the set
`{"return"}` and "Recalling friends, past and present." to exactly
`{"recalling", "recalling friends", "friends"}`. -/
theorem claim3_phraseset_examples :
    (get_search_phraseset "I shall return.".toList).toFinset
        = {"return".toList} ∧
    (get_search_phraseset
        "Recalling friends, past and present.".toList).toFinset
        = ({"recalling".toList, "friends".toList, "recalling friends".toList}
          : Finset Word) := by
  constructor
  · decide
  · decide

/-- C4: the claim states the phrase window is reset exactly when a token
ends in terminal punctuation (sentence boundary) or is a stop word.  The
code disagrees: `not_end_punctuation` is false for a token whose only
punctuation is trailing, so no reset happens there and the bigram
"good morning" spans the sentence boundary of "good. morning" (the
function's own docstring promises phrases "not spanning punctuation");
conversely a token with inner punctuation such as "don't", which neither
ends in terminal punctuation nor is a stop word, does reset the window, so
"alpha dont" is not produced for "alpha don't beta". -/
theorem claim4_window_reset_divergence :
    "good morning".toList ∈ get_search_phraseset "good. morning".toList ∧
    "alpha dont".toList ∉ get_search_phraseset "alpha don't beta".toList := by
  constructor
  · decide
  · decide

/-- C5: decoding recovers what encoding packed: for every document whose
default `kind + ' ' + id` title is free of the reserved delimiter (the
source's stated precondition on key names) and every shard number `n`,
`get_index_num` and `get_title` applied to
`get_index_key_name(parent, n)` with title property "My Title" return
`str(n)` and "My Title". -/
theorem claim5_key_name_roundtrip (kindId : Word) (n : Nat)
    (hk : okFrag kindId = true) :
    get_index_num (get_index_key_name kindId (natToChars n)
        (some (some "My Title".toList))) = natToChars n ∧
    get_title (get_index_key_name kindId (natToChars n)
        (some (some "My Title".toList))) = "My Title".toList := by
  have hkey : get_index_key_name kindId (natToChars n)
      (some (some "My Title".toList))
      = (kindId ++ DELIM ++ natToChars n) ++ DELIM ++ "My Title".toList := rfl
  have harr : (kindId ++ DELIM ++ natToChars n) ++ DELIM ++ "My Title".toList
      = kindId ++ '|' :: '|' ::
          (natToChars n ++ '|' :: '|' :: "My Title".toList) := by
    simp [DELIM]
  have hsplit : pySplit (get_index_key_name kindId (natToChars n)
      (some (some "My Title".toList)))
      = [kindId, natToChars n, "My Title".toList] := by
    rw [hkey, harr]
    rw [pySplit_append kindId _ hk]
    rw [pySplit_append (natToChars n) _ (okFrag_natToChars n)]
    rw [show pySplit "My Title".toList = ["My Title".toList] from by decide]
  constructor
  · rw [get_index_num, hsplit]
    simp
  · rw [get_title, hsplit]
    simp

/-- Witness for C5 at a concrete document key and shard number. -/
theorem claim5_key_name_roundtrip_witness :
    okFrag "Page mykey".toList = true ∧
    (get_index_num (get_index_key_name "Page mykey".toList (natToChars 3)
        (some (some "My Title".toList))) = natToChars 3 ∧
     get_title (get_index_key_name "Page mykey".toList (natToChars 3)
        (some (some "My Title".toList))) = "My Title".toList) :=
  ⟨by decide, claim5_key_name_roundtrip "Page mykey".toList 3 (by decide)⟩

/-- C8: an indexing task naming a document that no longer exists completes
with HTTP status 200 and leaves the shard store untouched — the stale job
is absorbed as a no-op success. -/
theorem claim8_missing_document_noop (k : Word) (db : Word → Option DocModel)
    (store : ShardStore) (h : db k = none) :
    SearchIndexing_post (some k) db store = (200, store) := by
  rw [SearchIndexing_post, h]

/-- Witness for C8 with an empty document lookup. -/
theorem claim8_missing_document_noop_witness :
    ((fun _ => none : Word → Option DocModel) "Page 1".toList
      = (none : Option DocModel)) ∧
    SearchIndexing_post (some "Page 1".toList) (fun _ => none)
      [("k".toList, ["x".toList])]
      = (200, [("k".toList, ["x".toList])]) :=
  ⟨rfl, claim8_missing_document_noop "Page 1".toList (fun _ => none) _ rfl⟩

/-- C9: `indexed_title_changed` raises `IndexTitleError` exactly when no
`INDEX_TITLE_FROM_PROP` is declared, and in that case (the raise happens
before any write) every existing shard is left unchanged. -/
theorem claim9_title_error_iff (kid : Word) (ta : Option (Option Word))
    (store : ShardStore) :
    ((indexed_title_changed kid ta store).2 = true ↔ ta = none) ∧
    (ta = none → (indexed_title_changed kid ta store).1 = store) := by
  cases ta with
  | none =>
    exact ⟨by simp [indexed_title_changed], fun _ => by
      simp [indexed_title_changed]⟩
  | some tv =>
    refine ⟨?_, ?_⟩
    · simp [indexed_title_changed]
    · intro h
      simp at h

/-- Witness for C9 at a concrete store: the raise is reported and the store
survives unchanged when the title property is missing, and no raise occurs
when it is declared. -/
theorem claim9_title_error_iff_witness :
    (((indexed_title_changed "Page 1".toList none
        [("k".toList, ["w".toList])]).2 = true
      ↔ (none : Option (Option Word)) = none) ∧
     ((none : Option (Option Word)) = none →
       (indexed_title_changed "Page 1".toList none
         [("k".toList, ["w".toList])]).1 = [("k".toList, ["w".toList])])) :=
  claim9_title_error_iff "Page 1".toList none [("k".toList, ["w".toList])]

/-- C1: with multi-entity indexing enabled, after `index()` the document's
shard store consists of term lists that are pairwise disjoint, whose union
is exactly the extracted term set (`terms`, the duplicate-free listing of
`get_search_phrases()`, stemmed when stemming is on), each of size at most
`MAX_ENTITY_SEARCH_PHRASES`, and the shard count is
`ceil(term_count / MAX_ENTITY_SEARCH_PHRASES)` — in particular 0 shards
for an empty term set.  The store hypotheses say the prior shards have
distinct key names and fit in the source's `fetch(1000)` read. -/
theorem claim1_shard_partition (kid : Word) (ta : Option (Option Word))
    (store : ShardStore) (terms : List Word)
    (h1 : (store.map Prod.fst).Nodup) (h2 : store.length ≤ 1000)
    (h3 : terms.Nodup) :
    ((Searchable_index true kid ta store terms).Pairwise
      (fun s t => ∀ w ∈ s.2, w ∉ t.2)) ∧
    (∀ w, (∃ e ∈ Searchable_index true kid ta store terms, w ∈ e.2) ↔
      w ∈ terms) ∧
    (∀ e ∈ Searchable_index true kid ta store terms,
      e.2.length ≤ MAX_ENTITY_SEARCH_PHRASES) ∧
    (Searchable_index true kid ta store terms).length =
      (terms.length + MAX_ENTITY_SEARCH_PHRASES - 1) /
        MAX_ENTITY_SEARCH_PHRASES := by
  have hperm := Searchable_index_multi_perm kid ta store terms h1 h2
  refine ⟨?_, ?_, ?_, ?_⟩
  · refine (List.Perm.pairwise_iff ?_ hperm).mpr
      (indexWrites_disjoint kid ta terms.length terms (Nat.le_refl _) h3 1)
    intro x y hxy w hw hwx
    exact hxy w hwx hw
  · intro w
    constructor
    · rintro ⟨e, he, hwe⟩
      rcases indexWrites_mem kid ta terms.length terms (Nat.le_refl _) 1 e
        (hperm.mem_iff.mp he) with ⟨m, _, _, hsub, _⟩
      exact hsub w hwe
    · intro hw
      rcases indexWrites_covers kid ta terms.length terms (Nat.le_refl _) 1 w
        hw with ⟨e, he, hwe⟩
      exact ⟨e, hperm.mem_iff.mpr he, hwe⟩
  · intro e he
    rcases indexWrites_mem kid ta terms.length terms (Nat.le_refl _) 1 e
      (hperm.mem_iff.mp he) with ⟨m, _, _, _, hlen⟩
    exact hlen
  · rw [hperm.length_eq]
    exact indexWrites_length kid ta terms.length terms (Nat.le_refl _) 1

/-- Witness for C1 on a small store and term set. -/
theorem claim1_shard_partition_witness :
    (([(("z".toList : Word), [("old".toList : Word)])] : ShardStore).map
      Prod.fst).Nodup ∧
    ([(("z".toList : Word), [("old".toList : Word)])] : ShardStore).length
      ≤ 1000 ∧
    ([("alpha".toList : Word), "beta".toList]).Nodup ∧
    (((Searchable_index true "Page 1".toList none
        [("z".toList, ["old".toList])]
        ["alpha".toList, "beta".toList]).Pairwise
      (fun s t => ∀ w ∈ s.2, w ∉ t.2)) ∧
    (∀ w, (∃ e ∈ Searchable_index true "Page 1".toList none
        [("z".toList, ["old".toList])] ["alpha".toList, "beta".toList],
        w ∈ e.2) ↔ w ∈ [("alpha".toList : Word), "beta".toList]) ∧
    (∀ e ∈ Searchable_index true "Page 1".toList none
        [("z".toList, ["old".toList])] ["alpha".toList, "beta".toList],
      e.2.length ≤ MAX_ENTITY_SEARCH_PHRASES) ∧
    (Searchable_index true "Page 1".toList none
        [("z".toList, ["old".toList])]
        ["alpha".toList, "beta".toList]).length =
      (([("alpha".toList : Word), "beta".toList]).length +
        MAX_ENTITY_SEARCH_PHRASES - 1) / MAX_ENTITY_SEARCH_PHRASES) :=
  ⟨by decide, by decide, by decide,
   claim1_shard_partition "Page 1".toList none _ _
     (by decide) (by decide) (by decide)⟩

/-- C2: re-running `index()` with the same term set converges: the second
run's store is a permutation of the first run's (hence identical shard
count, identical key-name sets, identical term unions), and the same final
state (up to order) is reached from any prior store — in particular from
any partially-updated store left by a failed run — because the
reconciliation re-reads the store.  `terms.length ≤ 4999000` keeps the
written shard family within the source's `fetch(1000)` read. -/
theorem claim2_index_idempotent (kid : Word) (ta : Option (Option Word))
    (store : ShardStore) (terms : List Word)
    (h1 : (store.map Prod.fst).Nodup) (h2 : store.length ≤ 1000)
    (h3 : terms.length ≤ 4999000) :
    (Searchable_index true kid ta
        (Searchable_index true kid ta store terms) terms).Perm
      (Searchable_index true kid ta store terms) ∧
    (Searchable_index true kid ta
        (Searchable_index true kid ta store terms) terms).length
      = (Searchable_index true kid ta store terms).length ∧
    (∀ k, k ∈ (Searchable_index true kid ta
          (Searchable_index true kid ta store terms) terms).map Prod.fst ↔
        k ∈ (Searchable_index true kid ta store terms).map Prod.fst) ∧
    (∀ w, (∃ e ∈ Searchable_index true kid ta
          (Searchable_index true kid ta store terms) terms, w ∈ e.2) ↔
        (∃ e ∈ Searchable_index true kid ta store terms, w ∈ e.2)) ∧
    (∀ store2 : ShardStore, (store2.map Prod.fst).Nodup →
      store2.length ≤ 1000 →
      (Searchable_index true kid ta store2 terms).Perm
        (Searchable_index true kid ta store terms)) := by
  have hperm := Searchable_index_multi_perm kid ta store terms h1 h2
  have hWnd : ((indexWrites true kid ta terms 1).map Prod.fst).Nodup :=
    indexWrites_keys_nodup kid ta terms.length terms (Nat.le_refl _) 1
  have honcend : ((Searchable_index true kid ta store terms).map
      Prod.fst).Nodup :=
    (List.Perm.nodup_iff (hperm.map Prod.fst)).mpr hWnd
  have honcelen : (Searchable_index true kid ta store terms).length ≤ 1000 := by
    rw [hperm.length_eq,
      indexWrites_length kid ta terms.length terms (Nat.le_refl _) 1]
    have hstep : terms.length + MAX_ENTITY_SEARCH_PHRASES - 1 ≤ 5003998 := by
      have hM : MAX_ENTITY_SEARCH_PHRASES = 4999 := rfl
      omega
    calc (terms.length + MAX_ENTITY_SEARCH_PHRASES - 1) /
          MAX_ENTITY_SEARCH_PHRASES
        ≤ 5003998 / MAX_ENTITY_SEARCH_PHRASES := Nat.div_le_div_right hstep
      _ = 1000 := by decide
  have htwice := (Searchable_index_multi_perm kid ta _ terms honcend
    honcelen).trans hperm.symm
  refine ⟨htwice, htwice.length_eq, ?_, ?_, ?_⟩
  · intro k
    exact (htwice.map Prod.fst).mem_iff
  · intro w
    constructor
    · rintro ⟨e, he, hwe⟩
      exact ⟨e, htwice.mem_iff.mp he, hwe⟩
    · rintro ⟨e, he, hwe⟩
      exact ⟨e, htwice.mem_iff.mpr he, hwe⟩
  · intro s2 h4 h5
    exact (Searchable_index_multi_perm kid ta s2 terms h4 h5).trans hperm.symm

/-- Witness for C2: the second run atop a stale single-shard store matches
the first. -/
theorem claim2_index_idempotent_witness :
    (([(("z".toList : Word), [("old".toList : Word)])] : ShardStore).map
      Prod.fst).Nodup ∧
    ([(("z".toList : Word), [("old".toList : Word)])] : ShardStore).length
      ≤ 1000 ∧
    ([("alpha".toList : Word)]).length ≤ 4999000 ∧
    (Searchable_index true "Page 1".toList none
        (Searchable_index true "Page 1".toList none
          [("z".toList, ["old".toList])] ["alpha".toList])
        ["alpha".toList]).Perm
      (Searchable_index true "Page 1".toList none
        [("z".toList, ["old".toList])] ["alpha".toList]) :=
  ⟨by decide, by decide, by decide,
   (claim2_index_idempotent "Page 1".toList none
     [("z".toList, ["old".toList])] ["alpha".toList]
     (by decide) (by decide) (by decide)).1⟩

/-- C6 counterexample: the claim promises at most one returned entry per
parent document key.  With a store holding two index shards of the same
parent (key 7) and the query "cat" — whose only token is shorter than the
keyword minimum, leaving the keyword tier with no term filter — the code
returns both shards, i.e. the same parent twice: the tier-2 exclusion and
the final dedup work on index-entity keys, not parent keys. -/
theorem claim6_counterexample :
    full_text_search
      [⟨1, 7, "Page".toList, "Page 7||1||Page 7".toList, ["lorem".toList]⟩,
       ⟨2, 7, "Page".toList, "Page 7||2||Page 7".toList, ["ipsum".toList]⟩]
      "cat".toList 10 none none true
      = [(7, "Page 7".toList), (7, "Page 7".toList)] := by decide

/-- C6 amended: the result is deduplicated per index entity (shard), not
per parent: the keyword tier excludes exactly the index-entity keys
already matched by the literal tier, so whenever the stored entities have
pairwise distinct keys the returned entity-key list has no duplicate; one
entry per parent follows only when each parent has a single matching
shard. -/
theorem claim6_amended_one_entry_per_shard (store : List IndexEntity)
    (phrase : Word) (limit : Nat) (kind : Option Word)
    (stem : Option (Word → Word)) (mw : Bool)
    (h : (store.map IndexEntity.key).Nodup) :
    ((full_text_search_keys store phrase limit kind stem mw).map
      IndexEntity.key).Nodup :=
  full_text_search_keys_nodup store phrase limit kind stem mw h

/-- Witness for the amended C6 on the two-shard store of the
counterexample. -/
theorem claim6_amended_one_entry_per_shard_witness :
    (([⟨1, 7, "Page".toList, "Page 7||1||Page 7".toList, ["lorem".toList]⟩,
       ⟨2, 7, "Page".toList, "Page 7||2||Page 7".toList,
        ["ipsum".toList]⟩] : List IndexEntity).map IndexEntity.key).Nodup ∧
    ((full_text_search_keys
      [⟨1, 7, "Page".toList, "Page 7||1||Page 7".toList, ["lorem".toList]⟩,
       ⟨2, 7, "Page".toList, "Page 7||2||Page 7".toList, ["ipsum".toList]⟩]
      "cat".toList 10 none none true).map IndexEntity.key).Nodup :=
  ⟨by decide,
   claim6_amended_one_entry_per_shard _ "cat".toList 10 none none true
     (by decide)⟩

/-- The single-entity branch of `Searchable.index` is one `put` of the
shard-1 key (no fetch, no delete). -/
theorem Searchable_index_single_eq (kid : Word) (ta : Option (Option Word))
    (store : ShardStore) (terms : List Word) :
    Searchable_index false kid ta store terms =
      applyPuts store (indexWrites false kid ta terms 1) := rfl

/-- C7 counterexample: the claim says that with multi-entity indexing
disabled `index()` writes exactly one shard for every document; for a
document whose term set is empty the loop body never runs, so nothing is
written and the store stays empty — zero shards, not one. -/
theorem claim7_counterexample :
    indexWrites false "Page 1".toList none [] 1 = [] ∧
    Searchable_index false "Page 1".toList none [] [] = [] := by
  refine ⟨indexWrites_nil false "Page 1".toList none 1, ?_⟩
  rw [Searchable_index_single_eq,
    indexWrites_nil false "Page 1".toList none 1]
  rfl

/-- C7 amended: with multi-entity indexing disabled, `index()` writes at
most one shard: when the term set is nonempty it performs exactly one
`put_index`, of shard number 1, holding the first
`MAX_ENTITY_SEARCH_PHRASES` of the term list — terms beyond the cap are
dropped, not written — and when the term set is empty nothing is
written. -/
theorem claim7_single_shard (kid : Word) (ta : Option (Option Word))
    (store : ShardStore) (terms : List Word) (h : terms ≠ []) :
    indexWrites false kid ta terms 1 =
      [(get_index_key_name kid (natToChars 1) ta,
        terms.take MAX_ENTITY_SEARCH_PHRASES)] ∧
    Searchable_index false kid ta store terms =
      applyPut store (get_index_key_name kid (natToChars 1) ta,
        terms.take MAX_ENTITY_SEARCH_PHRASES) ∧
    (terms.take MAX_ENTITY_SEARCH_PHRASES).length ≤ MAX_ENTITY_SEARCH_PHRASES ∧
    (∀ w ∈ terms.take MAX_ENTITY_SEARCH_PHRASES, w ∈ terms) := by
  have hw : indexWrites false kid ta terms 1 =
      [(get_index_key_name kid (natToChars 1) ta,
        terms.take MAX_ENTITY_SEARCH_PHRASES)] := by
    rw [indexWrites_cons false kid ta terms h 1]
    simp
  refine ⟨hw, ?_, ?_, ?_⟩
  · rw [Searchable_index_single_eq, hw]
    rfl
  · simp [List.length_take]
  · exact fun w hw => List.take_subset _ _ hw

/-- Witness for the amended C7 on a one-term document. -/
theorem claim7_single_shard_witness :
    (["alpha".toList] : List Word) ≠ [] ∧
    (indexWrites false "Page 1".toList none ["alpha".toList] 1 =
      [(get_index_key_name "Page 1".toList (natToChars 1) none,
        (["alpha".toList] : List Word).take MAX_ENTITY_SEARCH_PHRASES)] ∧
     Searchable_index false "Page 1".toList none [] ["alpha".toList] =
      applyPut [] (get_index_key_name "Page 1".toList (natToChars 1) none,
        (["alpha".toList] : List Word).take MAX_ENTITY_SEARCH_PHRASES) ∧
     ((["alpha".toList] : List Word).take
        MAX_ENTITY_SEARCH_PHRASES).length ≤ MAX_ENTITY_SEARCH_PHRASES ∧
     (∀ w ∈ (["alpha".toList] : List Word).take MAX_ENTITY_SEARCH_PHRASES,
        w ∈ (["alpha".toList] : List Word))) :=
  ⟨by decide,
   claim7_single_shard "Page 1".toList none [] ["alpha".toList] (by decide)⟩

/-- C10: when the literal tier contributes nothing and every token of the
phrase is shorter than `SEARCH_PHRASE_MIN_LENGTH` (e.g. the single word
"cat"), the keyword tier's query carries no `phrases =` filter at all, so
`full_text_search` returns up to `limit` index entries of the chosen mode
and kind straight from the store, whether or not their documents contain
any token of the query. -/
theorem claim10_short_tokens_unfiltered_query (store : List IndexEntity)
    (phrase : Word) (limit : Nat) (kind : Option Word)
    (stem : Option (Word → Word)) (mw : Bool)
    (h1 : literal_tier_keys store (tokenize phrase) kind limit stem mw = [])
    (h2 : ∀ w ∈ tokenize phrase, w.length < SEARCH_PHRASE_MIN_LENGTH) :
    full_text_search store phrase limit kind stem mw =
      ((store.filter (kind_matches kind)).take limit).map
        (fun e => (e.parent, get_title e.keyName)) := by
  rw [full_text_search, full_text_search_keys_eq, h1]
  by_cases hlim : 0 < limit
  · rw [if_pos (by simpa using hlim)]
    have hkw : (tokenize phrase).filter
        (fun w => w.length ≥ SEARCH_PHRASE_MIN_LENGTH) = [] := by
      rw [List.filter_eq_nil_iff]
      intro w hw
      simp
      exact h2 w hw
    rw [hkw]
    simp only [List.map_nil, List.length_nil, Nat.sub_zero, List.nil_append]
    rw [runQuery]
    simp only [List.all_nil]
    rw [List.filter_eq_self.mpr (fun a _ => rfl)]
    rw [List.filter_eq_self.mpr (fun a _ => by simp)]
  · have hzero : limit = 0 := by omega
    subst hzero
    rw [if_neg (by simp)]
    simp

/-- Witness for C10: the query "cat" returns a stored entry whose document
contains no token of the query. -/
theorem claim10_short_tokens_unfiltered_query_witness :
    literal_tier_keys
      [⟨1, 5, "Page".toList, "Page 5||1||Page 5".toList, ["wholly".toList]⟩]
      (tokenize "cat".toList) none 10 none true = [] ∧
    (∀ w ∈ tokenize "cat".toList, w.length < SEARCH_PHRASE_MIN_LENGTH) ∧
    full_text_search
      [⟨1, 5, "Page".toList, "Page 5||1||Page 5".toList, ["wholly".toList]⟩]
      "cat".toList 10 none none true =
      ((([⟨1, 5, "Page".toList, "Page 5||1||Page 5".toList,
          ["wholly".toList]⟩] : List IndexEntity).filter
        (kind_matches none)).take 10).map
        (fun e => (e.parent, get_title e.keyName)) :=
  ⟨by decide, by decide,
   claim10_short_tokens_unfiltered_query _ "cat".toList 10 none none true
     (by decide) (by decide)⟩
